import Mathlib

/-!
RC4 (arcfour.c): a shallow embedding and its properties.

The three functions of `src/arcfour.c` (`rc4init`, `rc4byte`, `rc4encrypt`) are
rendered as Lean functions on an explicit state record.

Conventions of the embedding.

* The header `arcfour.h` is not among the sources.  Its integer types are read
  as their names and uses indicate: `int8`, `int16`, `int32` are the unsigned
  integers of 8, 16 and 32 bits.  Values are natural numbers and every store
  into a narrower object is written with an explicit `% 256` or `% 65536`.
* The record fields `i`, `j`, `k` are taken as `int16`: the loop tests
  `p->i < 256` at lines 22 and 32 can only become false for a field that is
  able to hold the value 256.  The table `s` has 256 entries of type `int8`.
* A buffer handed over as pointer plus length is a list.  A read outside the
  key buffer and a remainder by zero have no defined result and give `none`.
* Allocation is taken to succeed (lines 11-12 and 89-92 abort otherwise).
* The two loops of `rc4init` that count in the record field `p->i` test the
  loop condition of the source at every round and carry a bound on the number
  of rounds; running out of rounds with the condition still true gives `none`.
  The loop of `rc4encrypt` runs once for every byte of its input list.
-/

namespace RC4

/-- The record `struct s_arcfour`: the two indices, the last keystream byte and
the table of 256 bytes. -/
structure Arcfour where
  i : Nat
  j : Nat
  k : Nat
  s : List Nat
deriving DecidableEq, Repr

/-- The function `rc4byte` (arcfour.c, lines 51-84): one step of the generator.
The result is the returned byte together with the updated record. -/
def rc4byte (p : Arcfour) : Nat × Arcfour :=
  -- line 58: p->i=(p->i+1)%256
  let i := (p.i + 1) % 256
  -- line 62: p->j=(p->j+p->s[p->i])%256
  let j := (p.j + p.s.getD i 0) % 256
  -- lines 66-67: tmp1, tmp2 are int16 and hold table entries
  let tmp1 := p.s.getD i 0
  let tmp2 := p.s.getD j 0
  -- lines 69-70: stores into the int8 table
  let s1 := p.s.set i (tmp2 % 256)
  let s2 := s1.set j (tmp1 % 256)
  -- line 75: tmp1=(p->s[p->i]+p->s[p->j])%256
  let tmp1 := (s2.getD i 0 + s2.getD j 0) % 256
  -- line 79: p->k=p->s[tmp1]
  let k := s2.getD tmp1 0
  -- line 82: the return type is int8
  (k % 256, { i := i, j := j, k := k, s := s2 })

/-- The function `rc4encrypt` (arcfour.c, lines 86-100).  The buffer `cleartext`
of `size` bytes is the list argument; the loop of lines 94-96 visits it from
index 0 upwards and stores `cleartext[x] ^ rc4byte(p)` into the `int8` cell
`ciphertext[x]`.  The result is the list of the `size` bytes written together
with the record as the calls of `rc4byte` left it. -/
def rc4encrypt (p : Arcfour) : List Nat → List Nat × Arcfour
  | [] => ([], p)
  | c :: rest =>
    let r := rc4byte p
    let out := rc4encrypt r.2 rest
    (((c ^^^ r.1) % 256) :: out.1, out.2)

/-- The record after `m` successive calls of `rc4byte` whose results are thrown
away. -/
def discard : Nat → Arcfour → Arcfour
  | 0, p => p
  | m + 1, p => discard m (rc4byte p).2

/-- Modelled from the spec: `rc4whitewash` is defined in `arcfour.h`, which is
not among the sources.  Section 4.4: "after KSA completes, invoke `next_byte`
exactly `N` times and discard the results, where `N` is an
implementation-fixed constant".  The constant `N` is the first argument; the
second is the value of the variable `n` of `rc4init` that the call site hands
over, and the third is the record. -/
def rc4whitewash (N : Nat) (_n : Nat) (p : Arcfour) : Arcfour :=
  discard N p

/-- The loop of lines 22-23, `for(p->i=0;p->i<256;p->i++) p->s[p->i]=p->i;`,
entered after `p->i=0`.  The first argument bounds the number of rounds. -/
def fillLoop : Nat → Arcfour → Option Arcfour
  | 0, p => if p.i < 256 then none else some p
  | fuel + 1, p =>
    if p.i < 256 then
      fillLoop fuel { p with s := p.s.set p.i (p.i % 256), i := (p.i + 1) % 65536 }
    else some p

/-- The body of the loop of lines 32-42 (lines 33-40), without the increment
of `p->i`. -/
def ksaBody (key : List Nat) (size : Nat) (p : Arcfour) : Option Arcfour :=
  -- line 33: temp1=p->i % size, an int8
  if size = 0 then none
  else
    let temp1 := (p.i % size) % 256
    -- line 34: temp2=p->j+p->s[p->i]+key[temp1], an int8
    match key[temp1]? with
    | none => none
    | some kb =>
      let temp2 := (p.j + p.s.getD p.i 0 + kb) % 256
      -- line 35: p->j=temp2 % 256
      let j := temp2 % 256
      -- lines 37-38
      let temp1 := p.s.getD p.i 0 % 256
      let temp2 := p.s.getD j 0 % 256
      -- lines 39-40
      let s1 := p.s.set p.i temp2
      let s2 := s1.set j temp1
      some { p with j := j, s := s2 }

/-- The loop of lines 32-42, entered after `p->i=0`.  The third argument bounds
the number of rounds. -/
def ksaLoop (key : List Nat) (size : Nat) : Nat → Arcfour → Option Arcfour
  | 0, p => if p.i < 256 then none else some p
  | fuel + 1, p =>
    if p.i < 256 then
      match ksaBody key size p with
      | none => none
      | some q => ksaLoop key size fuel { q with i := (q.i + 1) % 65536 }
    else some p

/-- Lines 11-44 of `rc4init`: the record when line 44 has been executed, just
before the call of `rc4whitewash`.  The allocated record is taken after the
loop of lines 14-15 and the assignments of lines 16-17: all 256 table entries
and the three fields are zero. -/
def rc4ksa (key : List Nat) (size : Nat) : Option Arcfour :=
  let p0 : Arcfour := { i := 0, j := 0, k := 0, s := List.replicate 256 0 }
  -- lines 22-23
  match fillLoop 256 { p0 with i := 0 } with
  | none => none
  | some p1 =>
    -- lines 32-42
    match ksaLoop key size 256 { p1 with i := 0 } with
    | none => none
    -- line 44: p->i=p->j=0
    | some p2 => some { p2 with i := 0, j := 0 }

/-- The function `rc4init` (arcfour.c, lines 3-48).  `N` is the discard count of
`rc4whitewash`, `n` the value the local variable `n` holds at line 45, `key`
the key buffer and `size` the length handed over with it (an `int16`, so a
call of the source has `size < 65536`). -/
def rc4init (N n : Nat) (key : List Nat) (size : Nat) : Option Arcfour :=
  match rc4ksa key size with
  | none => none
  -- lines 45-46
  | some p => some (rc4whitewash N n p)

/-- The table is a permutation of the values 0..255. -/
def IsPerm (s : List Nat) : Prop := s.Perm (List.range 256)

instance (s : List Nat) : Decidable (IsPerm s) := by
  unfold IsPerm; infer_instance

/-- Every element of the buffer is a byte. -/
def IsBytes (P : List Nat) : Prop := ∀ b ∈ P, b < 256

instance (P : List Nat) : Decidable (IsBytes P) := by
  unfold IsBytes; infer_instance

/-- The key of the driver (example.c, line 54): the bytes of "tomatoes". -/
def driverKey : List Nat := [116, 111, 109, 97, 116, 111, 101, 115]

/-- The text of the driver (example.c, line 57): the 39 bytes of
"Shall i compare thee to a summer's day?". -/
def driverText : List Nat :=
  [83, 104, 97, 108, 108, 32, 105, 32, 99, 111, 109, 112, 97, 114, 101, 32, 116, 104, 101,
   101, 32, 116, 111, 32, 97, 32, 115, 117, 109, 109, 101, 114, 39, 115, 32, 100, 97, 121, 63]

/-- Specification side of the key schedule (spec section 4.2, step 3): the round
for the index `i`, on the pair of the index `j` and the table:
`j = (j + S[i] + K[i mod L]) mod 256`, then `S[i]` and `S[j]` are swapped. -/
def ksaSpecStep (key : List Nat) (st : Nat × List Nat) (i : Nat) : Nat × List Nat :=
  let j := (st.1 + st.2.getD i 0 + key.getD (i % key.length) 0) % 256
  (j, (st.2.set i (st.2.getD j 0)).set j (st.2.getD i 0))

/-- Specification side of the key schedule: the textbook KSA.  Start from
`S[x] = x` for `x` in 0..255 and `j = 0`, run the rounds `i = 0, ..., 255` in
order; the result is the table. -/
def ksaSpec (key : List Nat) : List Nat :=
  ((List.range 256).foldl (ksaSpecStep key) (0, List.range 256)).2

/-- Specification side of the generator (spec section 4.3): the textbook PRGA
step.  `i = (i + 1) mod 256`, `j = (j + S[i]) mod 256`, swap `S[i]` and `S[j]`,
`t = (S[i] + S[j]) mod 256`, output `S[t]`; the output is kept in `k`. -/
def prgaSpec (p : Arcfour) : Nat × Arcfour :=
  let i := (p.i + 1) % 256
  let j := (p.j + p.s.getD i 0) % 256
  let s := (p.s.set i (p.s.getD j 0)).set j (p.s.getD i 0)
  let t := (s.getD i 0 + s.getD j 0) % 256
  (s.getD t 0, { i := i, j := j, k := s.getD t 0, s := s })

/-- A read `a[x]` that is defined only when `x` lies inside the array `a`. -/
def readAt (a : List Nat) (x : Nat) : Option Nat := a[x]?

/-- A store `a[x] = v` that is defined only when `x` lies inside the array `a`. -/
def writeAt (a : List Nat) (x v : Nat) : Option (List Nat) :=
  if x < a.length then some (a.set x v) else none

/-- The loop of lines 14-15, `for (x=0;x<256;x++) p->s[x]=0;`, on the table of
the record as it was allocated.  The first argument bounds the number of
rounds, the second is the `int16` counter `x`; the store is checked. -/
def zeroLoop : Nat → Nat → List Nat → Option (List Nat)
  | 0, x, s => if x < 256 then none else some s
  | fuel + 1, x, s =>
    if x < 256 then
      match writeAt s x 0 with
      | none => none
      | some t => zeroLoop fuel ((x + 1) % 65536) t
    else some s

/-- The loop of lines 22-23 as `fillLoop`, with the store `p->s[p->i]=p->i`
checked. -/
def fillLoopChecked : Nat → Arcfour → Option Arcfour
  | 0, p => if p.i < 256 then none else some p
  | fuel + 1, p =>
    if p.i < 256 then
      match writeAt p.s p.i (p.i % 256) with
      | none => none
      | some t => fillLoopChecked fuel { p with s := t, i := (p.i + 1) % 65536 }
    else some p

/-- The body of the loop of lines 32-42 as `ksaBody`, with every access to the
key and to the table checked. -/
def ksaBodyChecked (key : List Nat) (size : Nat) (p : Arcfour) : Option Arcfour :=
  -- line 33
  if size = 0 then none
  else
    let temp1 := (p.i % size) % 256
    -- line 34
    match readAt key temp1, readAt p.s p.i with
    | some kb, some si =>
      let temp2 := (p.j + si + kb) % 256
      -- line 35
      let j := temp2 % 256
      -- lines 37-38
      match readAt p.s p.i, readAt p.s j with
      | some a, some b =>
        let temp1 := a % 256
        let temp2 := b % 256
        -- lines 39-40
        match writeAt p.s p.i temp2 with
        | none => none
        | some s1 =>
          match writeAt s1 j temp1 with
          | none => none
          | some s2 => some { p with j := j, s := s2 }
      | _, _ => none
    | _, _ => none

/-- The loop of lines 32-42 as `ksaLoop`, with the checked body. -/
def ksaLoopChecked (key : List Nat) (size : Nat) : Nat → Arcfour → Option Arcfour
  | 0, p => if p.i < 256 then none else some p
  | fuel + 1, p =>
    if p.i < 256 then
      match ksaBodyChecked key size p with
      | none => none
      | some q => ksaLoopChecked key size fuel { q with i := (q.i + 1) % 65536 }
    else some p

/-- The function `rc4byte` with every access to the table checked. -/
def rc4byteChecked (p : Arcfour) : Option (Nat × Arcfour) :=
  -- line 58
  let i := (p.i + 1) % 256
  -- line 62
  match readAt p.s i with
  | none => none
  | some si =>
    let j := (p.j + si) % 256
    -- lines 66-67
    match readAt p.s i, readAt p.s j with
    | some tmp1, some tmp2 =>
      -- lines 69-70
      match writeAt p.s i (tmp2 % 256) with
      | none => none
      | some s1 =>
        match writeAt s1 j (tmp1 % 256) with
        | none => none
        | some s2 =>
          -- line 75
          match readAt s2 i, readAt s2 j with
          | some a, some b =>
            let tmp1 := (a + b) % 256
            -- line 79
            match readAt s2 tmp1 with
            | none => none
            | some k => some (k % 256, { i := i, j := j, k := k, s := s2 })
          | _, _ => none
    | _, _ => none

/-- The record after `m` successive checked calls of `rc4byte`. -/
def discardChecked : Nat → Arcfour → Option Arcfour
  | 0, p => some p
  | m + 1, p =>
    match rc4byteChecked p with
    | none => none
    | some r => discardChecked m r.2

/-- The function `rc4init` from the record `raw` as the allocation of line 11
returned it, with every array access checked: the loop of lines 14-15, the
assignments of line 16, the two loops over `p->i`, line 44, and the `N`
discarded calls of `rc4byte` that `rc4whitewash` makes. -/
def rc4initChecked (raw : Arcfour) (N _n : Nat) (key : List Nat) (size : Nat) :
    Option Arcfour :=
  match zeroLoop 256 0 raw.s with
  | none => none
  | some s0 =>
    let p0 : Arcfour := { raw with s := s0, i := 0, j := 0, k := 0 }
    match fillLoopChecked 256 { p0 with i := 0 } with
    | none => none
    | some p1 =>
      match ksaLoopChecked key size 256 { p1 with i := 0 } with
      | none => none
      | some p2 => discardChecked N { p2 with i := 0, j := 0 }

/-! ## Auxiliary facts -/

theorem isPerm_range : IsPerm (List.range 256) := by
  unfold IsPerm
  exact List.Perm.refl _

theorem isPerm_length {s : List Nat} (h : IsPerm s) : s.length = 256 := by
  have := List.Perm.length_eq h
  simpa using this

theorem isPerm_lt {s : List Nat} (h : IsPerm s) {x : Nat} (hx : x < 256) :
    s.getD x 0 < 256 := by
  have hl := isPerm_length h
  have hx2 : x < s.length := by omega
  rw [List.getD_eq_getElem s 0 hx2]
  have hm : s[x] ∈ List.range 256 := (List.Perm.mem_iff h).1 (List.getElem_mem hx2)
  simpa using hm

theorem swap_perm (l : List Nat) (a b : Nat) (ha : a < l.length) (hb : b < l.length) :
    ((l.set a (l.getD b 0)).set b (l.getD a 0)).Perm l := by
  rw [List.getD_eq_getElem l 0 ha, List.getD_eq_getElem l 0 hb]
  rw [List.perm_iff_count]
  intro v
  have hb2 : b < (l.set a l[b]).length := by simpa using hb
  rw [List.count_set _ _ _ _ hb2, List.count_set _ _ _ _ ha]
  have hget : (l.set a l[b])[b] = l[b] := by
    rw [List.getElem_set]
    split <;> rfl
  rw [hget]
  have h1 : (if l[a] == v then 1 else 0) ≤ l.count v := by
    split
    · rename_i h
      have : l[a] = v := by simpa using h
      have hm : v ∈ l := this ▸ List.getElem_mem ha
      exact List.count_pos_iff.2 hm
    · omega
  generalize (if l[a] == v then 1 else 0) = x at h1 ⊢
  generalize (if l[b] == v then 1 else 0) = y
  omega

theorem isPerm_swap {s : List Nat} (h : IsPerm s) {a b : Nat} (ha : a < 256) (hb : b < 256) :
    IsPerm ((s.set a (s.getD b 0 % 256)).set b (s.getD a 0 % 256)) := by
  have hl := isPerm_length h
  rw [Nat.mod_eq_of_lt (isPerm_lt h ha), Nat.mod_eq_of_lt (isPerm_lt h hb)]
  exact (swap_perm s a b (by omega) (by omega)).trans h

theorem rc4byte_isPerm {p : Arcfour} (h : IsPerm p.s) : IsPerm (rc4byte p).2.s := by
  simp only [rc4byte]
  exact isPerm_swap h (Nat.mod_lt _ (by decide)) (Nat.mod_lt _ (by decide))

theorem discard_isPerm (m : Nat) : ∀ {p : Arcfour}, IsPerm p.s → IsPerm (discard m p).s := by
  induction m with
  | zero => intro p h; exact h
  | succ m ih => intro p h; exact ih (rc4byte_isPerm h)

theorem rc4byte_lt (p : Arcfour) : (rc4byte p).1 < 256 := by
  simp only [rc4byte]
  exact Nat.mod_lt _ (by decide)

set_option maxRecDepth 100000 in
theorem fillLoop_result :
    fillLoop 256 { i := 0, j := 0, k := 0, s := List.replicate 256 0 }
      = some { i := 256, j := 0, k := 0, s := List.range 256 } := by
  rfl

theorem ksaBody_some {key : List Nat} {size : Nat} (h0 : 0 < size) (hk : size ≤ key.length)
    {p : Arcfour} (hp : IsPerm p.s) (hi : p.i < 256) :
    ∃ q, ksaBody key size p = some q ∧ q.i = p.i ∧ q.k = p.k ∧ IsPerm q.s := by
  have hlt : (p.i % size) % 256 < key.length :=
    lt_of_le_of_lt (Nat.mod_le _ _) (lt_of_lt_of_le (Nat.mod_lt _ h0) hk)
  have hne : ¬ size = 0 := by omega
  simp only [ksaBody, hne, if_false, List.getElem?_eq_getElem hlt]
  refine ⟨_, rfl, rfl, rfl, ?_⟩
  exact isPerm_swap hp hi (Nat.mod_lt _ (by decide))

theorem ksaLoop_some {key : List Nat} {size : Nat} (h0 : 0 < size) (hk : size ≤ key.length) :
    ∀ (fuel : Nat) (p : Arcfour), p.i + fuel = 256 → IsPerm p.s →
      ∃ q, ksaLoop key size fuel p = some q ∧ q.i = 256 ∧ q.k = p.k ∧ IsPerm q.s := by
  intro fuel
  induction fuel with
  | zero =>
    intro p hi hp
    have hge : ¬ p.i < 256 := by omega
    exact ⟨p, by simp [ksaLoop, hge], by omega, rfl, hp⟩
  | succ fuel ih =>
    intro p hi hp
    have hlt : p.i < 256 := by omega
    obtain ⟨q, hq, hqi, hqk, hqs⟩ := ksaBody_some h0 hk hp hlt
    have hnext : (q.i + 1) % 65536 = p.i + 1 := by
      rw [hqi]; exact Nat.mod_eq_of_lt (by omega)
    obtain ⟨r, hr, hri, hrk, hrs⟩ :=
      ih { q with i := (q.i + 1) % 65536 } (by simp only [hnext]; omega) hqs
    refine ⟨r, ?_, hri, hrk.trans hqk, hrs⟩
    simp only [ksaLoop, hlt, if_true, hq]
    exact hr

theorem rc4ksa_eq (key : List Nat) (size : Nat) :
    rc4ksa key size =
      (ksaLoop key size 256 { i := 0, j := 0, k := 0, s := List.range 256 }).map
        (fun p2 => { p2 with i := 0, j := 0 }) := by
  simp only [rc4ksa]
  rw [fillLoop_result]
  dsimp only
  cases ksaLoop key size 256 { i := 0, j := 0, k := 0, s := List.range 256 } <;> rfl

theorem rc4ksa_some {key : List Nat} {size : Nat} (h0 : 0 < size) (hk : size ≤ key.length) :
    ∃ q, rc4ksa key size = some q ∧ q.i = 0 ∧ q.j = 0 ∧ q.k = 0 ∧ IsPerm q.s := by
  have hstart : IsPerm (Arcfour.mk 0 0 0 (List.range 256)).s := by
    dsimp only
    exact isPerm_range
  have hfuel : (Arcfour.mk 0 0 0 (List.range 256)).i + 256 = 256 := by
    dsimp only
  obtain ⟨r, hr, _, hrk, hrs⟩ := ksaLoop_some h0 hk 256 _ hfuel hstart
  refine ⟨{ r with i := 0, j := 0 }, ?_, rfl, rfl, hrk, hrs⟩
  rw [rc4ksa_eq, hr]
  rfl

theorem rc4init_some (key : List Nat) (size : Nat) (h0 : 0 < size) (hk : size ≤ key.length)
    (N n : Nat) :
    ∃ q, rc4ksa key size = some q ∧ q.i = 0 ∧ q.j = 0 ∧ q.k = 0 ∧ IsPerm q.s ∧
      rc4init N n key size = some (discard N q) := by
  obtain ⟨q, hq, hi, hj, hk2, hs⟩ := rc4ksa_some h0 hk
  exact ⟨q, hq, hi, hj, hk2, hs, by simp only [rc4init, hq, rc4whitewash]⟩

theorem isPerm_count {s : List Nat} (h : IsPerm s) {v : Nat} (hv : v < 256) : s.count v = 1 := by
  rw [List.Perm.count_eq h]
  exact List.count_eq_one_of_mem (List.nodup_range 256) (List.mem_range.2 hv)

theorem rc4encrypt_cons (p : Arcfour) (c : Nat) (rest : List Nat) :
    rc4encrypt p (c :: rest) =
      (((c ^^^ (rc4byte p).1) % 256) :: (rc4encrypt (rc4byte p).2 rest).1,
        (rc4encrypt (rc4byte p).2 rest).2) := rfl

theorem rc4encrypt_length (P : List Nat) : ∀ p : Arcfour, (rc4encrypt p P).1.length = P.length := by
  induction P with
  | nil => intro p; rfl
  | cons c rest ih => intro p; simp [rc4encrypt_cons, ih]

theorem rc4encrypt_state (P : List Nat) :
    ∀ p : Arcfour, (rc4encrypt p P).2 = discard P.length p := by
  induction P with
  | nil => intro p; rfl
  | cons c rest ih => intro p; simp [rc4encrypt_cons, ih, discard]

theorem rc4encrypt_append (P1 P2 : List Nat) :
    ∀ p : Arcfour, rc4encrypt p (P1 ++ P2) =
      ((rc4encrypt p P1).1 ++ (rc4encrypt (rc4encrypt p P1).2 P2).1,
        (rc4encrypt (rc4encrypt p P1).2 P2).2) := by
  induction P1 with
  | nil => intro p; rfl
  | cons c rest ih => intro p; simp [rc4encrypt_cons, ih]

theorem xor_byte_lt {c k : Nat} (hc : c < 256) (hk : k < 256) : c ^^^ k < 256 :=
  Nat.xor_lt_two_pow (n := 8) hc hk

theorem xor_twice {c k : Nat} (hc : c < 256) (hk : k < 256) :
    (((c ^^^ k) % 256) ^^^ k) % 256 = c := by
  rw [Nat.mod_eq_of_lt (xor_byte_lt hc hk), Nat.xor_cancel_right, Nat.mod_eq_of_lt hc]

theorem rc4encrypt_getElem (P : List Nat) (hP : IsBytes P) :
    ∀ (p : Arcfour) (x : Nat), x < P.length →
      (rc4encrypt p P).1[x]? = some (P.getD x 0 ^^^ (rc4byte (discard x p)).1) := by
  induction P with
  | nil => intro p x hx; simp at hx
  | cons c rest ih =>
    intro p x hx
    have hc : c < 256 := hP c (List.mem_cons_self _ _)
    have hrest : IsBytes rest := fun b hb => hP b (List.mem_cons_of_mem _ hb)
    cases x with
    | zero =>
      simp [rc4encrypt_cons, discard, Nat.mod_eq_of_lt (xor_byte_lt hc (rc4byte_lt p))]
    | succ x =>
      have hx2 : x < rest.length := by simpa using hx
      simpa [rc4encrypt_cons, discard] using ih hrest (rc4byte p).2 x hx2

theorem rc4encrypt_twice (P : List Nat) (hP : IsBytes P) :
    ∀ p : Arcfour, (rc4encrypt p (rc4encrypt p P).1).1 = P := by
  induction P with
  | nil => intro p; rfl
  | cons c rest ih =>
    intro p
    have hc : c < 256 := hP c (List.mem_cons_self _ _)
    have hrest : IsBytes rest := fun b hb => hP b (List.mem_cons_of_mem _ hb)
    simp [rc4encrypt_cons, xor_twice hc (rc4byte_lt p), ih hrest]

theorem rc4byte_i (p : Arcfour) : (rc4byte p).2.i = (p.i + 1) % 256 := rfl

theorem discard_i (m : Nat) :
    ∀ p : Arcfour, p.i < 256 → (discard m p).i = (p.i + m) % 256 := by
  induction m with
  | zero => intro p hp; exact (Nat.mod_eq_of_lt hp).symm
  | succ m ih =>
    intro p _
    rw [discard, ih _ (by rw [rc4byte_i]; exact Nat.mod_lt _ (by decide)), rc4byte_i]
    omega

theorem rc4init_n (N n : Nat) (key : List Nat) (size : Nat) :
    rc4init N n key size = rc4init N 0 key size := by
  unfold rc4init rc4whitewash
  rfl

theorem exists_of_map_eq_some {f : Arcfour → List Nat} {o : Option Arcfour} {c : List Nat}
    (h : o.map f = some c) : ∃ p, o = some p ∧ f p = c := by
  cases o with
  | none => simp at h
  | some p => exact ⟨p, rfl, by simpa using h⟩

set_option maxRecDepth 100000 in
theorem vector_Key :
    (rc4init 0 0 [75, 101, 121] 3).map
        (fun p => (rc4encrypt p [80, 108, 97, 105, 110, 116, 101, 120, 116]).1)
      = some [0xBB, 0xF3, 0x16, 0xE8, 0xD9, 0x40, 0xAF, 0x0A, 0xD3] := by
  rfl

set_option maxRecDepth 100000 in
theorem vector_Wiki :
    (rc4init 0 0 [87, 105, 107, 105] 4).map
        (fun p => (rc4encrypt p [112, 101, 100, 105, 97]).1)
      = some [0x10, 0x21, 0xBF, 0x04, 0x20] := by
  rfl

set_option maxRecDepth 100000 in
theorem vector_Secret :
    (rc4init 0 0 [83, 101, 99, 114, 101, 116] 6).map
        (fun p => (rc4encrypt p [65, 116, 116, 97, 99, 107, 32, 97, 116, 32, 100, 97, 119, 110]).1)
      = some [0x45, 0xA0, 0x1F, 0x64, 0x5F, 0xC3, 0x5B, 0x38, 0x35, 0x52, 0x54, 0x4B, 0x9B,
          0xF5] := by
  rfl

/-! ## The claims -/

/-- C1 (round trip).  For every key of length 1..=256, every buffer of bytes `P`
and every discard count `N`, `rc4init` returns a state, and encrypting `P` from
that state and then encrypting the result from a freshly initialised state of
the same key gives back `P` byte for byte. -/
theorem C1_round_trip (N n : Nat) (key P : List Nat)
    (hlo : 1 ≤ key.length) (_hhi : key.length ≤ 256) (hP : IsBytes P) :
    ∃ p q, rc4init N n key key.length = some p ∧ rc4init N n key key.length = some q ∧
      (rc4encrypt q (rc4encrypt p P).1).1 = P := by
  obtain ⟨r, _, _, _, _, _, hr⟩ := rc4init_some key key.length
    (Nat.lt_of_lt_of_le Nat.zero_lt_one hlo) (Nat.le_refl key.length) N n
  exact ⟨_, _, hr, hr, rc4encrypt_twice P hP _⟩

/-- Witness of C1 at the input of the driver: the key "tomatoes" and the text
"Shall i compare thee to a summer's day?", with 3072 discarded bytes. -/
theorem C1_round_trip_witness :
    (1 ≤ driverKey.length ∧ driverKey.length ≤ 256 ∧ IsBytes driverText) ∧
    ∃ p q, rc4init 3072 0 driverKey driverKey.length = some p ∧
      rc4init 3072 0 driverKey driverKey.length = some q ∧
      (rc4encrypt q (rc4encrypt p driverText).1).1 = driverText :=
  ⟨⟨by decide, by decide, by decide⟩,
    C1_round_trip 3072 0 driverKey driverText (by decide) (by decide) (by decide)⟩

/-- C2 (the generator preserves the permutation).  If the table of a state is a
permutation of 0..255 then, whatever the indices `i` and `j` are, so is the
table after one call of `rc4byte`, and so is the table after any number `m` of
calls. -/
theorem C2_rc4byte_preserves_permutation (p : Arcfour) (h : IsPerm p.s) :
    IsPerm (rc4byte p).2.s ∧ ∀ m : Nat, IsPerm (discard m p).s :=
  ⟨rc4byte_isPerm h, fun m => discard_isPerm m h⟩

/-- Witness of C2 at the state with the identity table and indices 7 and 200. -/
theorem C2_rc4byte_preserves_permutation_witness :
    IsPerm (Arcfour.mk 7 200 0 (List.range 256)).s ∧
    (IsPerm (rc4byte (Arcfour.mk 7 200 0 (List.range 256))).2.s ∧
      ∀ m : Nat, IsPerm (discard m (Arcfour.mk 7 200 0 (List.range 256))).s) := by
  have h : IsPerm (Arcfour.mk 7 200 0 (List.range 256)).s := by
    dsimp only
    exact isPerm_range
  exact ⟨h, C2_rc4byte_preserves_permutation _ h⟩

/-- C3 (permutation after key setup).  For every key of length 1..=256 and every
discard count `N`, `rc4init` returns a state whose table is a permutation of
0..255: it has 256 entries and every value 0..255 occurs in it exactly once. -/
theorem C3_rc4init_permutation (N n : Nat) (key : List Nat)
    (hlo : 1 ≤ key.length) (_hhi : key.length ≤ 256) :
    ∃ p, rc4init N n key key.length = some p ∧ IsPerm p.s ∧ p.s.length = 256 ∧
      ∀ v : Nat, v < 256 → p.s.count v = 1 := by
  obtain ⟨r, _, _, _, _, hs, hr⟩ := rc4init_some key key.length
    (Nat.lt_of_lt_of_le Nat.zero_lt_one hlo) (Nat.le_refl key.length) N n
  have hd : IsPerm (discard N r).s := discard_isPerm N hs
  exact ⟨_, hr, hd, isPerm_length hd, fun v hv => isPerm_count hd hv⟩

/-- Witness of C3 at the 256-byte key 0, 1, ..., 255, whose bytes are all
distinct, with 3072 discarded bytes. -/
theorem C3_rc4init_permutation_witness :
    (1 ≤ (List.range 256).length ∧ (List.range 256).length ≤ 256) ∧
    ∃ p, rc4init 3072 0 (List.range 256) (List.range 256).length = some p ∧ IsPerm p.s ∧
      p.s.length = 256 ∧ ∀ v : Nat, v < 256 → p.s.count v = 1 :=
  ⟨⟨by simp, by simp⟩, C3_rc4init_permutation 3072 0 (List.range 256) (by simp) (by simp)⟩

/-- C4 (published test vectors).  With no discarded bytes (`N = 0`), whatever the
variable `n` holds: the key "Key" turns "Plaintext" into BBF316E8D940AF0AD3, the
key "Wiki" turns "pedia" into 1021BF0420, and the key "Secret" turns
"Attack at dawn" into 45A01F645FC35B383552544B9BF5.  Keys and texts are given
by their ASCII codes. -/
theorem C4_test_vectors (n : Nat) :
    (∃ p, rc4init 0 n [75, 101, 121] 3 = some p ∧
      (rc4encrypt p [80, 108, 97, 105, 110, 116, 101, 120, 116]).1
        = [0xBB, 0xF3, 0x16, 0xE8, 0xD9, 0x40, 0xAF, 0x0A, 0xD3]) ∧
    (∃ p, rc4init 0 n [87, 105, 107, 105] 4 = some p ∧
      (rc4encrypt p [112, 101, 100, 105, 97]).1 = [0x10, 0x21, 0xBF, 0x04, 0x20]) ∧
    (∃ p, rc4init 0 n [83, 101, 99, 114, 101, 116] 6 = some p ∧
      (rc4encrypt p [65, 116, 116, 97, 99, 107, 32, 97, 116, 32, 100, 97, 119, 110]).1
        = [0x45, 0xA0, 0x1F, 0x64, 0x5F, 0xC3, 0x5B, 0x38, 0x35, 0x52, 0x54, 0x4B, 0x9B,
            0xF5]) := by
  refine ⟨?_, ?_, ?_⟩
  · rw [rc4init_n]; exact exists_of_map_eq_some vector_Key
  · rw [rc4init_n]; exact exists_of_map_eq_some vector_Wiki
  · rw [rc4init_n]; exact exists_of_map_eq_some vector_Secret

/-- C5 (streaming equivalence).  For every state `p` and every split
`P = P1 ++ P2`: encrypting `P1` from `p` and then `P2` from the state the first
call left behind gives outputs whose concatenation is the output of one call on
`P` from `p`, and the two runs end in the same state. -/
theorem C5_streaming (p : Arcfour) (P1 P2 : List Nat) :
    (rc4encrypt p (P1 ++ P2)).1
        = (rc4encrypt p P1).1 ++ (rc4encrypt (rc4encrypt p P1).2 P2).1 ∧
    (rc4encrypt p (P1 ++ P2)).2 = (rc4encrypt (rc4encrypt p P1).2 P2).2 := by
  rw [rc4encrypt_append]
  exact ⟨rfl, rfl⟩

/-- C6, as amended (no key-length check).  `rc4init` refuses no key for its
length: for every key length from 1 to 65535, the range of the `int16` argument
`size`, it returns a state, for the lengths 1..=256 and for the lengths above
256 alike. -/
theorem C6_no_key_length_check (N n : Nat) (key : List Nat)
    (hlo : 1 ≤ key.length) (_h16 : key.length < 65536) :
    ∃ p, rc4init N n key key.length = some p := by
  obtain ⟨r, _, _, _, _, _, hr⟩ := rc4init_some key key.length
    (Nat.lt_of_lt_of_le Nat.zero_lt_one hlo) (Nat.le_refl key.length) N n
  exact ⟨_, hr⟩

/-- Witness of C6 (amended) at the key of 1000 bytes, all equal to 65, with
3072 discarded bytes. -/
theorem C6_no_key_length_check_witness :
    (1 ≤ (List.replicate 1000 65).length ∧ (List.replicate 1000 65).length < 65536) ∧
    ∃ p, rc4init 3072 0 (List.replicate 1000 65) (List.replicate 1000 65).length = some p := by
  have hl : (List.replicate 1000 65).length = 1000 := List.length_replicate 1000 65
  have h1 : 1 ≤ (List.replicate 1000 65).length := by rw [hl]; decide
  have h2 : (List.replicate 1000 65).length < 65536 := by rw [hl]; decide
  exact ⟨⟨h1, h2⟩, C6_no_key_length_check 3072 0 (List.replicate 1000 65) h1 h2⟩

/-- C6, counterexample: a key of 257 bytes is not refused; `rc4init` returns a
state for it. -/
theorem C6_counterexample :
    256 < (List.replicate 257 0).length ∧
    rc4init 0 0 (List.replicate 257 0) (List.replicate 257 0).length ≠ none := by
  have hlen : (List.replicate 257 0).length = 257 := List.length_replicate 257 0
  refine ⟨by rw [hlen]; decide, ?_⟩
  obtain ⟨r, _, _, _, _, _, hr⟩ :=
    rc4init_some (List.replicate 257 0) (List.replicate 257 0).length
      (by rw [hlen]; decide) (Nat.le_refl _) 0 0
  rw [hr]
  exact Option.noConfusion

/-- C7 (per-byte contract).  For every state `p`, every buffer of bytes `P` and
every index `x < len(P)`, byte `x` of the output of `rc4encrypt` is `P[x]` XOR
the byte returned by the call number `x + 1` of `rc4byte` in a run of
successive calls that starts at `p`. -/
theorem C7_per_byte_xor (p : Arcfour) (P : List Nat) (x : Nat)
    (hx : x < P.length) (hP : IsBytes P) :
    (rc4encrypt p P).1[x]? = some (P.getD x 0 ^^^ (rc4byte (discard x p)).1) :=
  rc4encrypt_getElem P hP p x hx

/-- Witness of C7: the last byte (index 38) of the text of the driver, from the
state with the identity table. -/
theorem C7_per_byte_xor_witness :
    (38 < driverText.length ∧ IsBytes driverText) ∧
    (rc4encrypt (Arcfour.mk 0 0 0 (List.range 256)) driverText).1[38]?
      = some (driverText.getD 38 0 ^^^
          (rc4byte (discard 38 (Arcfour.mk 0 0 0 (List.range 256)))).1) :=
  ⟨⟨by decide, by decide⟩,
    C7_per_byte_xor (Arcfour.mk 0 0 0 (List.range 256)) driverText 38 (by decide) (by decide)⟩

/-- C8 (state advance).  The state after `rc4encrypt` on `P` is the state after
`len(P)` calls of `rc4byte`; on the empty input the state is unchanged, and so
it is for the state that `rc4init` returns for the one-byte key "k". -/
theorem C8_state_advance (p : Arcfour) (P : List Nat) :
    (rc4encrypt p P).2 = discard P.length p ∧
    rc4encrypt p [] = ([], p) ∧
    ∀ N n : Nat, ∃ q, rc4init N n [107] 1 = some q ∧ rc4encrypt q [] = ([], q) := by
  refine ⟨rc4encrypt_state P p, rfl, fun N n => ?_⟩
  obtain ⟨r, _, _, _, _, _, hr⟩ :=
    rc4init_some [107] 1 Nat.zero_lt_one (Nat.le_refl 1) N n
  exact ⟨_, hr, rfl⟩

/-- C9 (length preservation).  For every state and every input, the empty one
included, `rc4encrypt` writes exactly as many bytes as the input has. -/
theorem C9_length_preserved (p : Arcfour) (P : List Nat) :
    (rc4encrypt p P).1.length = P.length ∧ (rc4encrypt p []).1.length = 0 :=
  ⟨rc4encrypt_length P p, rfl⟩

/-- C10, as amended (indices at the end of key setup).  For every key of length
1..=256 both indices are zero when line 44 has run, that is in the state `q`
that `rc4whitewash` starts from.  The returned state is `q` after the `N`
discarded calls of `rc4byte`; its index `i` is `N mod 256`, and both indices
are zero in the returned state when `N = 0`. -/
theorem C10_indices_after_key_setup (N n : Nat) (key : List Nat)
    (hlo : 1 ≤ key.length) (_hhi : key.length ≤ 256) :
    ∃ q p, rc4ksa key key.length = some q ∧ q.i = 0 ∧ q.j = 0 ∧
      rc4init N n key key.length = some p ∧ p = rc4whitewash N n q ∧
      p.i = N % 256 ∧ (N = 0 → p.i = 0 ∧ p.j = 0) := by
  obtain ⟨q, hq, hi, hj, _, _, hr⟩ :=
    rc4init_some key key.length (Nat.lt_of_lt_of_le Nat.zero_lt_one hlo)
      (Nat.le_refl key.length) N n
  refine ⟨q, discard N q, hq, hi, hj, hr, rfl, ?_, ?_⟩
  · rw [discard_i N q (by omega), hi, Nat.zero_add]
  · intro hN
    subst hN
    exact ⟨hi, hj⟩

/-- Witness of C10 (amended) at the key of the driver with 3072 discarded
bytes. -/
theorem C10_indices_after_key_setup_witness :
    (1 ≤ driverKey.length ∧ driverKey.length ≤ 256) ∧
    ∃ q p, rc4ksa driverKey driverKey.length = some q ∧ q.i = 0 ∧ q.j = 0 ∧
      rc4init 3072 0 driverKey driverKey.length = some p ∧ p = rc4whitewash 3072 0 q ∧
      p.i = 3072 % 256 ∧ (3072 = 0 → p.i = 0 ∧ p.j = 0) :=
  ⟨⟨by decide, by decide⟩, C10_indices_after_key_setup 3072 0 driverKey (by decide) (by decide)⟩

/-- C10, counterexample: with 257 discarded bytes the state returned for the
one-byte key "k" has index `i = 1`, not 0. -/
theorem C10_counterexample :
    ∃ p, rc4init 257 0 [107] [107].length = some p ∧ p.i = 1 := by
  obtain ⟨q, _, hi, _, _, _, hr⟩ :=
    rc4init_some [107] [107].length Nat.zero_lt_one (Nat.le_refl _) 257 0
  exact ⟨_, hr, by rw [discard_i 257 q (by omega), hi]⟩

/-! ## Auxiliary facts for the behaviour claims -/

theorem isBytes_getD {s : List Nat} (h : IsBytes s) (x : Nat) : s.getD x 0 < 256 := by
  by_cases hx : x < s.length
  · rw [List.getD_eq_getElem s 0 hx]
    exact h _ (List.getElem_mem hx)
  · rw [List.getD_eq_default s 0 (Nat.le_of_not_lt hx)]
    decide

theorem isBytes_set {s : List Nat} (h : IsBytes s) (x : Nat) {v : Nat} (hv : v < 256) :
    IsBytes (s.set x v) := by
  intro b hb
  rcases List.mem_or_eq_of_mem_set hb with hb | hb
  · exact h b hb
  · exact hb ▸ hv

theorem isBytes_of_isPerm {s : List Nat} (h : IsPerm s) : IsBytes s := by
  intro b hb
  exact List.mem_range.1 ((List.Perm.mem_iff h).1 hb)

theorem isBytes_range : IsBytes (List.range 256) := isBytes_of_isPerm isPerm_range

theorem rc4byte_eq_prgaSpec {p : Arcfour} (h : IsBytes p.s) : rc4byte p = prgaSpec p := by
  have h1 : ∀ x, p.s.getD x 0 % 256 = p.s.getD x 0 := fun x =>
    Nat.mod_eq_of_lt (isBytes_getD h x)
  have h2 : ∀ a b t : Nat,
      ((p.s.set a (p.s.getD b 0)).set b (p.s.getD a 0)).getD t 0 % 256
        = ((p.s.set a (p.s.getD b 0)).set b (p.s.getD a 0)).getD t 0 := fun a b t =>
    Nat.mod_eq_of_lt
      (isBytes_getD (isBytes_set (isBytes_set h a (isBytes_getD h b)) b (isBytes_getD h a)) t)
  simp only [rc4byte, prgaSpec, h1, h2]

theorem ksaBody_spec {key : List Nat} (h0 : 0 < key.length) {p : Arcfour}
    (hp : IsPerm p.s) (hi : p.i < 256) :
    ksaBody key key.length p =
      some { p with j := (ksaSpecStep key (p.j, p.s) p.i).1,
                    s := (ksaSpecStep key (p.j, p.s) p.i).2 } := by
  have hb := isBytes_of_isPerm hp
  have hmod : (p.i % key.length) % 256 = p.i % key.length :=
    Nat.mod_eq_of_lt (lt_of_le_of_lt (Nat.mod_le _ _) hi)
  have hlt : p.i % key.length < key.length := Nat.mod_lt _ h0
  have hne : ¬ key.length = 0 := by omega
  have h1 : ∀ x, p.s.getD x 0 % 256 = p.s.getD x 0 := fun x =>
    Nat.mod_eq_of_lt (isBytes_getD hb x)
  simp only [ksaBody, ksaSpecStep, hne, if_false, hmod, List.getElem?_eq_getElem hlt,
    List.getD_eq_getElem key 0 hlt, h1, Nat.mod_mod]

theorem ksaSpecStep_isPerm (key : List Nat) {j : Nat} {s : List Nat} (hs : IsPerm s)
    {i : Nat} (hi : i < 256) : IsPerm (ksaSpecStep key (j, s) i).2 := by
  have hl := isPerm_length hs
  simp only [ksaSpecStep]
  exact (swap_perm s _ _ (by omega) (by rw [hl]; exact Nat.mod_lt _ (by decide))).trans hs

theorem ksaLoop_spec {key : List Nat} (h0 : 0 < key.length) :
    ∀ (fuel : Nat) (p : Arcfour), p.i + fuel = 256 → IsPerm p.s →
      ∃ q, ksaLoop key key.length fuel p = some q ∧ q.k = p.k ∧
        (q.j, q.s) = (List.range' p.i fuel).foldl (ksaSpecStep key) (p.j, p.s) := by
  intro fuel
  induction fuel with
  | zero =>
    intro p hi _
    have hge : ¬ p.i < 256 := by omega
    exact ⟨p, by simp [ksaLoop, hge], rfl, rfl⟩
  | succ fuel ih =>
    intro p hi hp
    have hlt : p.i < 256 := by omega
    have hnext : (p.i + 1) % 65536 = p.i + 1 := Nat.mod_eq_of_lt (by omega)
    obtain ⟨r, hr, hrk, hrs⟩ :=
      ih { i := p.i + 1, j := (ksaSpecStep key (p.j, p.s) p.i).1, k := p.k,
           s := (ksaSpecStep key (p.j, p.s) p.i).2 }
        (by dsimp only; omega) (ksaSpecStep_isPerm key hp hlt)
    refine ⟨r, ?_, hrk, ?_⟩
    · simp only [ksaLoop, hlt, if_true, ksaBody_spec h0 hp hlt, hnext]
      exact hr
    · rw [hrs, List.range'_succ, List.foldl_cons]

theorem rc4ksa_spec {key : List Nat} (h0 : 0 < key.length) :
    rc4ksa key key.length = some { i := 0, j := 0, k := 0, s := ksaSpec key } := by
  have hstart : IsPerm (Arcfour.mk 0 0 0 (List.range 256)).s := by
    dsimp only
    exact isPerm_range
  have hfuel : (Arcfour.mk 0 0 0 (List.range 256)).i + 256 = 256 := by
    dsimp only
  obtain ⟨r, hr, hrk, hrs⟩ := ksaLoop_spec h0 256 _ hfuel hstart
  dsimp only at hrk hrs
  rw [← List.range_eq_range'] at hrs
  rw [rc4ksa_eq, hr]
  have hs : r.s = ksaSpec key := by
    unfold ksaSpec
    rw [← hrs]
  simp only [Option.map_some', hrk, hs]

theorem swap_getElem?_ne (l : List Nat) {a b x : Nat} (ha : x ≠ a) (hb : x ≠ b) (u v : Nat) :
    ((l.set a u).set b v)[x]? = l[x]? := by
  rw [List.getElem?_set_ne (Ne.symm hb), List.getElem?_set_ne (Ne.symm ha)]

theorem swap_getElem?_right (l : List Nat) {a b : Nat} (ha : a < l.length) (hb : b < l.length) :
    ((l.set a (l.getD b 0)).set b (l.getD a 0))[b]? = l[a]? := by
  rw [List.getElem?_set_self (by simpa using hb), List.getD_eq_getElem l 0 ha,
    List.getElem?_eq_getElem ha]

theorem swap_getElem?_left (l : List Nat) {a b : Nat} (ha : a < l.length) (hb : b < l.length) :
    ((l.set a (l.getD b 0)).set b (l.getD a 0))[a]? = l[b]? := by
  by_cases hab : b = a
  · subst hab
    exact swap_getElem?_right l ha ha
  · rw [List.getElem?_set_ne hab, List.getElem?_set_self ha, List.getD_eq_getElem l 0 hb,
      List.getElem?_eq_getElem hb]

theorem prgaSpec_j_lt (p : Arcfour) : (prgaSpec p).2.j < 256 := Nat.mod_lt _ (by decide)

theorem prgaSpec_i_lt (p : Arcfour) : (prgaSpec p).2.i < 256 := Nat.mod_lt _ (by decide)

theorem readAt_of_lt {a : List Nat} {x : Nat} (h : x < a.length) :
    readAt a x = some (a.getD x 0) := by
  rw [readAt, List.getElem?_eq_getElem h, List.getD_eq_getElem a 0 h]

theorem writeAt_of_lt {a : List Nat} {x : Nat} (h : x < a.length) (v : Nat) :
    writeAt a x v = some (a.set x v) := by
  rw [writeAt, if_pos h]

theorem zeroLoop_some :
    ∀ (fuel x : Nat) (s : List Nat), x + fuel = 256 → s.length = 256 →
      (∀ y, y < x → s[y]? = some 0) →
      ∃ r, zeroLoop fuel x s = some r ∧ r.length = 256 ∧ ∀ y, y < 256 → r[y]? = some 0 := by
  intro fuel
  induction fuel with
  | zero =>
    intro x s hx hl hz
    have hge : ¬ x < 256 := by omega
    have hx2 : x = 256 := by omega
    exact ⟨s, by simp [zeroLoop, hge], hl, fun y hy => hz y (by omega)⟩
  | succ fuel ih =>
    intro x s hx hl hz
    have hlt : x < 256 := by omega
    have hxs : x < s.length := by omega
    have hnext : (x + 1) % 65536 = x + 1 := Nat.mod_eq_of_lt (by omega)
    obtain ⟨r, hr, hrl, hrz⟩ := ih (x + 1) (s.set x 0) (by omega) (by simpa using hl)
      (fun y hy => by
        by_cases hyx : x = y
        · subst hyx
          exact List.getElem?_set_self hxs
        · rw [List.getElem?_set_ne hyx]
          exact hz y (by omega))
    refine ⟨r, ?_, hrl, hrz⟩
    simp only [zeroLoop, hlt, if_true, writeAt_of_lt hxs, hnext]
    exact hr

theorem zeroLoop_result {s : List Nat} (hl : s.length = 256) :
    zeroLoop 256 0 s = some (List.replicate 256 0) := by
  obtain ⟨r, hr, hrl, hrz⟩ := zeroLoop_some 256 0 s (Nat.zero_add 256) hl
    (fun y hy => absurd hy (Nat.not_lt_zero y))
  rw [hr]
  congr 1
  apply List.ext_getElem?
  intro y
  by_cases hy : y < 256
  · rw [hrz y hy, List.getElem?_replicate, if_pos hy]
  · rw [List.getElem?_eq_none (by omega), List.getElem?_replicate, if_neg hy]

theorem fillLoopChecked_eq :
    ∀ (fuel : Nat) (p : Arcfour), p.s.length = 256 →
      fillLoopChecked fuel p = fillLoop fuel p := by
  intro fuel
  induction fuel with
  | zero => intro p _; rfl
  | succ fuel ih =>
    intro p hl
    by_cases hlt : p.i < 256
    · have hps : p.i < p.s.length := by omega
      simp only [fillLoopChecked, fillLoop, hlt, if_true, writeAt_of_lt hps]
      exact ih _ (by simpa using hl)
    · simp only [fillLoopChecked, fillLoop, hlt, if_false]

theorem ksaBodyChecked_eq (key : List Nat) (size : Nat) {p : Arcfour}
    (hl : p.s.length = 256) (hi : p.i < 256) :
    ksaBodyChecked key size p = ksaBody key size p := by
  have hps : p.i < p.s.length := by omega
  by_cases h0 : size = 0
  · simp only [ksaBodyChecked, ksaBody, h0, if_true]
  · simp only [ksaBodyChecked, ksaBody, h0, if_false, readAt_of_lt hps]
    simp only [readAt]
    cases hk : key[p.i % size % 256]? with
    | none => rfl
    | some kb =>
      have hj : ∀ v : Nat, v % 256 % 256 < p.s.length := fun v => by
        rw [hl]; exact Nat.mod_lt _ (by decide)
      have hj2 : ∀ v w : Nat, v % 256 % 256 < (p.s.set p.i w).length := fun v w => by
        rw [List.length_set, hl]; exact Nat.mod_lt _ (by decide)
      have hr : ∀ v : Nat, p.s[v % 256 % 256]? = some (p.s.getD (v % 256 % 256) 0) := fun v => by
        rw [List.getElem?_eq_getElem (hj v), List.getD_eq_getElem p.s 0 (hj v)]
      simp only [List.getElem?_eq_getElem hps, List.getD_eq_getElem p.s 0 hps, hr,
        writeAt_of_lt hps, writeAt_of_lt (hj2 _ _)]

theorem ksaBody_length {key : List Nat} {size : Nat} {p q : Arcfour}
    (h : ksaBody key size p = some q) : q.s.length = p.s.length ∧ q.i = p.i := by
  by_cases h0 : size = 0
  · simp only [ksaBody, h0, if_true] at h
    exact Option.noConfusion h
  · simp only [ksaBody, h0, if_false] at h
    cases hk : key[p.i % size % 256]? with
    | none => rw [hk] at h; exact Option.noConfusion h
    | some kb =>
      rw [hk] at h
      have h2 := Option.some.inj h
      subst h2
      simp only [List.length_set, and_self]

theorem ksaLoopChecked_eq (key : List Nat) (size : Nat) :
    ∀ (fuel : Nat) (p : Arcfour), p.s.length = 256 →
      ksaLoopChecked key size fuel p = ksaLoop key size fuel p := by
  intro fuel
  induction fuel with
  | zero => intro p _; rfl
  | succ fuel ih =>
    intro p hl
    by_cases hlt : p.i < 256
    · simp only [ksaLoopChecked, ksaLoop, hlt, if_true, ksaBodyChecked_eq key size hl hlt]
      cases hb : ksaBody key size p with
      | none => rfl
      | some q => exact ih _ (by rw [← hl]; exact (ksaBody_length hb).1)
    · simp only [ksaLoopChecked, ksaLoop, hlt, if_false]

theorem ksaLoop_length {key : List Nat} {size : Nat} :
    ∀ (fuel : Nat) (p q : Arcfour), ksaLoop key size fuel p = some q →
      q.s.length = p.s.length := by
  intro fuel
  induction fuel with
  | zero =>
    intro p q h
    simp only [ksaLoop] at h
    split at h
    · exact Option.noConfusion h
    · rw [← Option.some.inj h]
  | succ fuel ih =>
    intro p q h
    simp only [ksaLoop] at h
    split at h
    · cases hb : ksaBody key size p with
      | none => rw [hb] at h; exact Option.noConfusion h
      | some r =>
        rw [hb] at h
        exact (ih _ q h).trans (ksaBody_length hb).1
    · rw [← Option.some.inj h]

theorem rc4byte_length (p : Arcfour) : (rc4byte p).2.s.length = p.s.length := by
  simp only [rc4byte, List.length_set]

theorem discard_length (m : Nat) : ∀ p : Arcfour, (discard m p).s.length = p.s.length := by
  induction m with
  | zero => intro p; rfl
  | succ m ih => intro p; rw [discard, ih, rc4byte_length]

theorem rc4byteChecked_eq {p : Arcfour} (hl : p.s.length = 256) :
    rc4byteChecked p = some (rc4byte p) := by
  have hm : ∀ v : Nat, v % 256 < p.s.length := fun v => by
    rw [hl]; exact Nat.mod_lt _ (by decide)
  have hm1 : ∀ v a w : Nat, v % 256 < (p.s.set a w).length := fun v a w => by
    rw [List.length_set]; exact hm v
  have hm2 : ∀ v a w b u : Nat, v % 256 < ((p.s.set a w).set b u).length := fun v a w b u => by
    rw [List.length_set]; exact hm1 v a w
  simp only [rc4byteChecked, rc4byte, readAt_of_lt (hm _), writeAt_of_lt (hm _),
    writeAt_of_lt (hm1 _ _ _), readAt_of_lt (hm2 _ _ _ _ _)]

theorem discardChecked_eq (m : Nat) :
    ∀ p : Arcfour, p.s.length = 256 → discardChecked m p = some (discard m p) := by
  induction m with
  | zero => intro p _; rfl
  | succ m ih =>
    intro p hl
    simp only [discardChecked, rc4byteChecked_eq hl, discard]
    exact ih _ (by rw [rc4byte_length]; exact hl)

theorem rc4initChecked_unfold (raw : Arcfour) (N n : Nat) (key : List Nat) (size : Nat)
    (s0 : List Nat) (h0 : zeroLoop 256 0 raw.s = some s0) (a b c : Nat) (t : List Nat)
    (h1 : fillLoopChecked 256 { i := 0, j := 0, k := 0, s := s0 }
      = some { i := a, j := b, k := c, s := t }) :
    rc4initChecked raw N n key size =
      (ksaLoopChecked key size 256 { i := 0, j := b, k := c, s := t }).bind
        (fun p2 => discardChecked N { i := 0, j := 0, k := p2.k, s := p2.s }) := by
  unfold rc4initChecked
  rw [h0]
  dsimp only
  rw [h1]
  dsimp only
  cases ksaLoopChecked key size 256 { i := 0, j := b, k := c, s := t } <;> rfl

theorem rc4init_eq_bind (N n : Nat) (key : List Nat) (size : Nat) :
    rc4init N n key size =
      (ksaLoop key size 256 { i := 0, j := 0, k := 0, s := List.range 256 }).bind
        (fun p2 => some (discard N { i := 0, j := 0, k := p2.k, s := p2.s })) := by
  rw [rc4init, rc4ksa_eq]
  cases ksaLoop key size 256 { i := 0, j := 0, k := 0, s := List.range 256 } <;> rfl

theorem rc4initChecked_eq (raw : Arcfour) (N n : Nat) (key : List Nat) (size : Nat)
    (hraw : raw.s.length = 256) :
    rc4initChecked raw N n key size = rc4init N n key size := by
  have hrange : (Arcfour.mk 0 0 0 (List.range 256)).s.length = 256 := by
    dsimp only
    exact List.length_range 256
  have hrep : (Arcfour.mk 0 0 0 (List.replicate 256 0)).s.length = 256 := by
    dsimp only
    exact List.length_replicate 256 0
  rw [rc4init_eq_bind,
    rc4initChecked_unfold raw N n key size _ (zeroLoop_result hraw) 256 0 0 (List.range 256)
      ((fillLoopChecked_eq 256 _ hrep).trans fillLoop_result),
    ksaLoopChecked_eq key size 256 _ hrange]
  cases hk : ksaLoop key size 256 { i := 0, j := 0, k := 0, s := List.range 256 } with
  | none => rfl
  | some p2 =>
    have hlen : p2.s.length = 256 := (ksaLoop_length 256 _ p2 hk).trans hrange
    rw [Option.some_bind, Option.some_bind]
    exact discardChecked_eq N _ hlen

theorem ksaBody_congr {key key2 : List Nat} {size size2 : Nat} {p : Arcfour}
    (h0 : size ≠ 0) (h02 : size2 ≠ 0)
    (hk : key[(p.i % size) % 256]? = key2[(p.i % size2) % 256]?) :
    ksaBody key size p = ksaBody key2 size2 p := by
  simp only [ksaBody, h0, h02, if_false, hk]

theorem ksaLoop_congr {key key2 : List Nat} {size size2 : Nat}
    (h : ∀ p : Arcfour, p.i < 256 → ksaBody key size p = ksaBody key2 size2 p) :
    ∀ (fuel : Nat) (p : Arcfour), ksaLoop key size fuel p = ksaLoop key2 size2 fuel p := by
  intro fuel
  induction fuel with
  | zero => intro p; rfl
  | succ fuel ih =>
    intro p
    by_cases hlt : p.i < 256
    · simp only [ksaLoop, hlt, if_true, h p hlt]
      cases ksaBody key2 size2 p with
      | none => rfl
      | some q => exact ih _
    · simp only [ksaLoop, hlt, if_false]

theorem rc4init_congr {key key2 : List Nat} {size size2 : Nat}
    (h : ∀ p : Arcfour, p.i < 256 → ksaBody key size p = ksaBody key2 size2 p) (N n : Nat) :
    rc4init N n key size = rc4init N n key2 size2 := by
  rw [rc4init_eq_bind, rc4init_eq_bind, ksaLoop_congr h]

theorem ksaBody_take {key : List Nat} (hlen : 256 < key.length) {p : Arcfour}
    (hi : p.i < 256) :
    ksaBody key key.length p = ksaBody (key.take 256) 256 p := by
  apply ksaBody_congr (by omega) (by decide)
  have e1 : p.i % key.length = p.i := Nat.mod_eq_of_lt (by omega)
  have e2 : p.i % 256 = p.i := Nat.mod_eq_of_lt hi
  rw [e1, e2, e2, List.getElem?_take_of_lt hi]

theorem ksaBody_same_take {key key2 : List Nat} (hlen : 256 < key.length)
    (hlen2 : 256 < key2.length) (ht : key2.take 256 = key.take 256) {p : Arcfour}
    (hi : p.i < 256) :
    ksaBody key2 key2.length p = ksaBody key key.length p := by
  rw [ksaBody_take hlen hi, ksaBody_take hlen2 hi, ht]

theorem double_index (K : List Nat) (hL : 0 < K.length) (i : Nat) :
    (K ++ K)[i % (K ++ K).length]? = K[i % K.length]? := by
  have hlen : (K ++ K).length = 2 * K.length := by rw [List.length_append]; omega
  have hm : i % (2 * K.length) < 2 * K.length := Nat.mod_lt _ (by omega)
  have hmm : i % (2 * K.length) % K.length = i % K.length :=
    Nat.mod_mod_of_dvd i (Dvd.intro_left 2 rfl)
  rw [hlen, ← hmm]
  generalize i % (2 * K.length) = m at hm
  by_cases hlt : m < K.length
  · rw [List.getElem?_append_left hlt, Nat.mod_eq_of_lt hlt]
  · have hge : K.length ≤ m := Nat.le_of_not_lt hlt
    rw [List.getElem?_append_right hge, Nat.mod_eq_sub_mod hge,
      Nat.mod_eq_of_lt (by omega)]

theorem ksaBody_double (K : List Nat) (hL : 0 < K.length) {p : Arcfour} (hi : p.i < 256) :
    ksaBody (K ++ K) (K ++ K).length p = ksaBody K K.length p := by
  have hlen : (K ++ K).length = 2 * K.length := by rw [List.length_append]; omega
  apply ksaBody_congr (by omega) (by omega)
  have e1 : p.i % (K ++ K).length % 256 = p.i % (K ++ K).length :=
    Nat.mod_eq_of_lt (lt_of_le_of_lt (Nat.mod_le _ _) hi)
  have e2 : p.i % K.length % 256 = p.i % K.length :=
    Nat.mod_eq_of_lt (lt_of_le_of_lt (Nat.mod_le _ _) hi)
  rw [e1, e2, double_index K hL]

theorem xor_same_key (a b k : Nat) : (a ^^^ k) ^^^ (b ^^^ k) = a ^^^ b := by
  rw [Nat.xor_comm b k, Nat.xor_assoc, Nat.xor_cancel_left]

theorem getD_of_getElem? {l : List Nat} {x v : Nat} (h : l[x]? = some v) : l.getD x 0 = v := by
  rw [List.getD_eq_getElem?_getD, h]
  rfl

/-! ## The behaviour claims -/

/-- C12 (the key schedule is the textbook KSA).  For every key of length `L`
with `1 <= L <= 256`, the record that `rc4init` holds when line 44 has run,
just before the prefix discard, has both indices zero and the table that the
textbook schedule `ksaSpec` computes: start from `S[x] = x`, `j = 0`, and for
`i = 0..255` set `j = (j + S[i] + K[i mod L]) mod 256` and swap `S[i]`, `S[j]`.
The stores into the 8-bit `temp1` and `temp2` change nothing. -/
theorem C12_key_schedule_is_textbook (key : List Nat)
    (hlo : 1 ≤ key.length) (_hhi : key.length ≤ 256) :
    rc4ksa key key.length = some { i := 0, j := 0, k := 0, s := ksaSpec key } :=
  rc4ksa_spec (Nat.lt_of_lt_of_le Nat.zero_lt_one hlo)

/-- Witness of C12 at the key of the driver. -/
theorem C12_key_schedule_is_textbook_witness :
    (1 ≤ driverKey.length ∧ driverKey.length ≤ 256) ∧
    rc4ksa driverKey driverKey.length
      = some { i := 0, j := 0, k := 0, s := ksaSpec driverKey } :=
  ⟨⟨by decide, by decide⟩, C12_key_schedule_is_textbook driverKey (by decide) (by decide)⟩

/-- C13 (the generator step is the textbook PRGA).  For every state with `i`,
`j` in 0..255 and a table of 256 bytes, `rc4byte` is the textbook step
`prgaSpec`: `i' = (i + 1) mod 256`, `j' = (j + s[i']) mod 256`, the entries at
`i'` and `j'` are exchanged, the result is the entry of the new table at index
`(s'[i'] + s'[j']) mod 256`, and the field `k` holds the result. -/
theorem C13_generator_step_is_textbook (p : Arcfour) (_hi : p.i < 256) (_hj : p.j < 256)
    (hlen : p.s.length = 256) (hb : IsBytes p.s) :
    rc4byte p = prgaSpec p ∧
    (rc4byte p).2.i = (p.i + 1) % 256 ∧
    (rc4byte p).2.j = (p.j + p.s.getD ((p.i + 1) % 256) 0) % 256 ∧
    (rc4byte p).2.s[(rc4byte p).2.i]? = p.s[(rc4byte p).2.j]? ∧
    (rc4byte p).2.s[(rc4byte p).2.j]? = p.s[(rc4byte p).2.i]? ∧
    (rc4byte p).1 = (rc4byte p).2.s.getD
      (((rc4byte p).2.s.getD (rc4byte p).2.i 0 + (rc4byte p).2.s.getD (rc4byte p).2.j 0) % 256) 0 ∧
    (rc4byte p).2.k = (rc4byte p).1 := by
  rw [rc4byte_eq_prgaSpec hb]
  have hi2 : (prgaSpec p).2.i < p.s.length := by rw [hlen]; exact prgaSpec_i_lt p
  have hj2 : (prgaSpec p).2.j < p.s.length := by rw [hlen]; exact prgaSpec_j_lt p
  exact ⟨rfl, rfl, rfl, swap_getElem?_left p.s hi2 hj2, swap_getElem?_right p.s hi2 hj2,
    rfl, rfl⟩

/-- Witness of C13 at the state with the identity table and indices 7 and 200. -/
theorem C13_generator_step_is_textbook_witness :
    ((Arcfour.mk 7 200 0 (List.range 256)).i < 256 ∧
      (Arcfour.mk 7 200 0 (List.range 256)).j < 256 ∧
      (Arcfour.mk 7 200 0 (List.range 256)).s.length = 256 ∧
      IsBytes (Arcfour.mk 7 200 0 (List.range 256)).s) ∧
    rc4byte (Arcfour.mk 7 200 0 (List.range 256))
      = prgaSpec (Arcfour.mk 7 200 0 (List.range 256)) := by
  have h1 : (Arcfour.mk 7 200 0 (List.range 256)).i < 256 := by dsimp only; decide
  have h2 : (Arcfour.mk 7 200 0 (List.range 256)).j < 256 := by dsimp only; decide
  have h3 : (Arcfour.mk 7 200 0 (List.range 256)).s.length = 256 := by
    dsimp only
    exact List.length_range 256
  have h4 : IsBytes (Arcfour.mk 7 200 0 (List.range 256)).s := by
    dsimp only
    exact isBytes_range
  exact ⟨⟨h1, h2, h3, h4⟩, (C13_generator_step_is_textbook _ h1 h2 h3 h4).1⟩

/-- C14 (prefix discard).  For every key of length 1..=256 the state that
`rc4init` returns is the state with the key-scheduled table and `i = j = 0`
after exactly `N` calls of `rc4byte` whose results are thrown away; with
`N = 0` it is the textbook state after the key schedule. -/
theorem C14_prefix_discard (N n : Nat) (key : List Nat)
    (hlo : 1 ≤ key.length) (_hhi : key.length ≤ 256) :
    (∃ q, rc4ksa key key.length = some q ∧ q.i = 0 ∧ q.j = 0 ∧
      rc4init N n key key.length = some (discard N q)) ∧
    rc4init 0 n key key.length = some { i := 0, j := 0, k := 0, s := ksaSpec key } := by
  have h0 : 0 < key.length := Nat.lt_of_lt_of_le Nat.zero_lt_one hlo
  refine ⟨⟨_, rc4ksa_spec h0, rfl, rfl, ?_⟩, ?_⟩
  · simp only [rc4init, rc4ksa_spec h0, rc4whitewash]
  · simp only [rc4init, rc4ksa_spec h0, rc4whitewash, discard]

/-- Witness of C14 at the key of the driver with 3072 discarded bytes. -/
theorem C14_prefix_discard_witness :
    (1 ≤ driverKey.length ∧ driverKey.length ≤ 256) ∧
    ((∃ q, rc4ksa driverKey driverKey.length = some q ∧ q.i = 0 ∧ q.j = 0 ∧
      rc4init 3072 0 driverKey driverKey.length = some (discard 3072 q)) ∧
    rc4init 0 0 driverKey driverKey.length
      = some { i := 0, j := 0, k := 0, s := ksaSpec driverKey }) :=
  ⟨⟨by decide, by decide⟩, C14_prefix_discard 3072 0 driverKey (by decide) (by decide)⟩

/-- C15 (frame of one generator step).  For every state with a table of 256
bytes, `rc4byte` leaves the length of the table and every entry at a position
other than the new `i` and the new `j` as they were, and the entries at these
two positions are exchanged. -/
theorem C15_generator_step_frame (p : Arcfour) (hlen : p.s.length = 256) (hb : IsBytes p.s) :
    (rc4byte p).2.s.length = p.s.length ∧
    (∀ x : Nat, x ≠ (rc4byte p).2.i → x ≠ (rc4byte p).2.j →
      (rc4byte p).2.s[x]? = p.s[x]?) ∧
    (rc4byte p).2.s[(rc4byte p).2.i]? = p.s[(rc4byte p).2.j]? ∧
    (rc4byte p).2.s[(rc4byte p).2.j]? = p.s[(rc4byte p).2.i]? := by
  rw [rc4byte_eq_prgaSpec hb]
  have hi2 : (prgaSpec p).2.i < p.s.length := by rw [hlen]; exact prgaSpec_i_lt p
  have hj2 : (prgaSpec p).2.j < p.s.length := by rw [hlen]; exact prgaSpec_j_lt p
  refine ⟨?_, fun x hx1 hx2 => swap_getElem?_ne p.s hx1 hx2 _ _,
    swap_getElem?_left p.s hi2 hj2, swap_getElem?_right p.s hi2 hj2⟩
  simp only [prgaSpec, List.length_set]

/-- Witness of C15 at the state with the identity table and indices 7 and 200. -/
theorem C15_generator_step_frame_witness :
    ((Arcfour.mk 7 200 0 (List.range 256)).s.length = 256 ∧
      IsBytes (Arcfour.mk 7 200 0 (List.range 256)).s) ∧
    ∀ x : Nat, x ≠ (rc4byte (Arcfour.mk 7 200 0 (List.range 256))).2.i →
      x ≠ (rc4byte (Arcfour.mk 7 200 0 (List.range 256))).2.j →
      (rc4byte (Arcfour.mk 7 200 0 (List.range 256))).2.s[x]?
        = (Arcfour.mk 7 200 0 (List.range 256)).s[x]? := by
  have h3 : (Arcfour.mk 7 200 0 (List.range 256)).s.length = 256 := by
    dsimp only
    exact List.length_range 256
  have h4 : IsBytes (Arcfour.mk 7 200 0 (List.range 256)).s := by
    dsimp only
    exact isBytes_range
  exact ⟨⟨h3, h4⟩, (C15_generator_step_frame _ h3 h4).2.1⟩

/-- C16 (index safety).  For every key of length `size` with
`1 <= size <= 256`: the key index `p->i % size` is below `size`, the 8-bit
`temp1` holds it unchanged and `size` is not zero; `rc4init` run with every
array access checked succeeds and returns the state of the unchecked run; and
after any number `m` of further checked calls of `rc4byte` the next call again
passes every check, with new indices `i` and `j` below 256. -/
theorem C16_index_safety (raw : Arcfour) (N n m : Nat) (key : List Nat)
    (hraw : raw.s.length = 256) (hlo : 1 ≤ key.length) (_hhi : key.length ≤ 256) :
    (∀ i : Nat, i < 256 → key.length ≠ 0 ∧ (i % key.length) % 256 = i % key.length ∧
      i % key.length < key.length) ∧
    ∃ p, rc4initChecked raw N n key key.length = some p ∧
      rc4init N n key key.length = some p ∧ p.s.length = 256 ∧
      discardChecked m p = some (discard m p) ∧
      rc4byteChecked (discard m p) = some (rc4byte (discard m p)) ∧
      (rc4byte (discard m p)).2.i < 256 ∧ (rc4byte (discard m p)).2.j < 256 ∧
      (rc4byte (discard m p)).2.s.length = 256 := by
  have h0 : 0 < key.length := Nat.lt_of_lt_of_le Nat.zero_lt_one hlo
  refine ⟨fun i hi => ⟨by omega,
    Nat.mod_eq_of_lt (lt_of_le_of_lt (Nat.mod_le _ _) hi), Nat.mod_lt _ h0⟩, ?_⟩
  obtain ⟨q, _, _, _, _, hs, hr⟩ := rc4init_some key key.length h0 (Nat.le_refl _) N n
  have hlen : (discard N q).s.length = 256 := isPerm_length (discard_isPerm N hs)
  have hlen2 : (discard m (discard N q)).s.length = 256 := by
    rw [discard_length]; exact hlen
  refine ⟨discard N q, ?_, hr, hlen, discardChecked_eq m _ hlen, rc4byteChecked_eq hlen2,
    ?_, ?_, ?_⟩
  · rw [rc4initChecked_eq raw N n key key.length hraw, hr]
  · exact Nat.mod_lt _ (by decide)
  · exact Nat.mod_lt _ (by decide)
  · rw [rc4byte_length]; exact hlen2

/-- Witness of C16 at the key of the driver, 3072 discarded bytes and the call
number 1001 after them. -/
theorem C16_index_safety_witness :
    ((Arcfour.mk 1 2 3 (List.replicate 256 7)).s.length = 256 ∧
      1 ≤ driverKey.length ∧ driverKey.length ≤ 256) ∧
    ∃ p, rc4initChecked (Arcfour.mk 1 2 3 (List.replicate 256 7)) 3072 0 driverKey
        driverKey.length = some p ∧
      rc4init 3072 0 driverKey driverKey.length = some p ∧ p.s.length = 256 ∧
      discardChecked 1000 p = some (discard 1000 p) ∧
      rc4byteChecked (discard 1000 p) = some (rc4byte (discard 1000 p)) ∧
      (rc4byte (discard 1000 p)).2.i < 256 ∧ (rc4byte (discard 1000 p)).2.j < 256 ∧
      (rc4byte (discard 1000 p)).2.s.length = 256 := by
  have h1 : (Arcfour.mk 1 2 3 (List.replicate 256 7)).s.length = 256 := by
    dsimp only
    exact List.length_replicate 256 7
  exact ⟨⟨h1, by decide, by decide⟩,
    (C16_index_safety _ 3072 0 1000 driverKey h1 (by decide) (by decide)).2⟩

/-- C17 (keys longer than 256 bytes are cut off, not refused).  For every key
buffer of length `size > 256`, `size` an `int16`, `rc4init` returns a state,
the same state that it returns for the first 256 bytes of the key with size
256; a second key that agrees with it on the first 256 bytes gives the same
state, so the bytes from index 256 on have no influence. -/
theorem C17_long_key_truncated (N n : Nat) (key : List Nat)
    (hlen : 256 < key.length) (_h16 : key.length < 65536) :
    (∃ p, rc4init N n key key.length = some p ∧
      rc4init N n (key.take 256) 256 = some p) ∧
    ∀ key2 : List Nat, 256 < key2.length → key2.take 256 = key.take 256 →
      rc4init N n key2 key2.length = rc4init N n key key.length := by
  have e : rc4init N n key key.length = rc4init N n (key.take 256) 256 :=
    rc4init_congr (fun p hp => ksaBody_take hlen hp) N n
  obtain ⟨q, _, _, _, _, _, hr⟩ := rc4init_some key key.length (by omega) (Nat.le_refl _) N n
  refine ⟨⟨_, hr, by rw [← e, hr]⟩, fun key2 hlen2 ht => ?_⟩
  exact rc4init_congr (fun p hp => ksaBody_same_take hlen hlen2 ht hp) N n

/-- Witness of C17 at the key of 300 bytes, all equal to 65. -/
theorem C17_long_key_truncated_witness :
    (256 < (List.replicate 300 65).length ∧ (List.replicate 300 65).length < 65536) ∧
    ∃ p, rc4init 0 0 (List.replicate 300 65) (List.replicate 300 65).length = some p ∧
      rc4init 0 0 ((List.replicate 300 65).take 256) 256 = some p := by
  have hl : (List.replicate 300 65).length = 300 := List.length_replicate 300 65
  have h1 : 256 < (List.replicate 300 65).length := by rw [hl]; decide
  have h2 : (List.replicate 300 65).length < 65536 := by rw [hl]; decide
  exact ⟨⟨h1, h2⟩, (C17_long_key_truncated 0 0 (List.replicate 300 65) h1 h2).1⟩

/-- C18 (equivalent keys).  For every key `K` of length `L >= 1` with `2L` an
`int16`, `rc4init` on the doubled key `K ++ K` with size `2L` returns a state,
the same state as on `K` with size `L`, although the two keys differ; hence
every text is encrypted to the same bytes under both keys. -/
theorem C18_doubled_key (N n : Nat) (K : List Nat)
    (hL : 1 ≤ K.length) (_h16 : 2 * K.length < 65536) :
    rc4init N n (K ++ K) (K ++ K).length = rc4init N n K K.length ∧
    (∃ p, rc4init N n K K.length = some p) ∧
    (K ++ K).length = 2 * K.length ∧ K ++ K ≠ K ∧
    ∀ P : List Nat, (rc4init N n (K ++ K) (K ++ K).length).map (fun p => rc4encrypt p P)
      = (rc4init N n K K.length).map (fun p => rc4encrypt p P) := by
  have h0 : 0 < K.length := Nat.lt_of_lt_of_le Nat.zero_lt_one hL
  have e : rc4init N n (K ++ K) (K ++ K).length = rc4init N n K K.length :=
    rc4init_congr (fun p hp => ksaBody_double K h0 hp) N n
  have hlen : (K ++ K).length = 2 * K.length := by rw [List.length_append]; omega
  obtain ⟨q, _, _, _, _, _, hr⟩ := rc4init_some K K.length h0 (Nat.le_refl _) N n
  refine ⟨e, ⟨_, hr⟩, hlen, fun hne => ?_, fun P => by rw [e]⟩
  have := congrArg List.length hne
  omega

/-- Witness of C18 at the key of the driver. -/
theorem C18_doubled_key_witness :
    (1 ≤ driverKey.length ∧ 2 * driverKey.length < 65536) ∧
    rc4init 3072 0 (driverKey ++ driverKey) (driverKey ++ driverKey).length
      = rc4init 3072 0 driverKey driverKey.length :=
  ⟨⟨by decide, by decide⟩, (C18_doubled_key 3072 0 driverKey (by decide) (by decide)).1⟩

/-- C19 (the keystream does not depend on the data).  For every state and any
two buffers of bytes of the same length, the two runs of `rc4encrypt` end in
the same state, and at every index the XOR of the two outputs is the XOR of the
two inputs. -/
theorem C19_keystream_independent (p : Arcfour) (P1 P2 : List Nat)
    (hlen : P1.length = P2.length) (h1 : IsBytes P1) (h2 : IsBytes P2) :
    (rc4encrypt p P1).2 = (rc4encrypt p P2).2 ∧
    ∀ x : Nat, x < P1.length →
      (rc4encrypt p P1).1.getD x 0 ^^^ (rc4encrypt p P2).1.getD x 0
        = P1.getD x 0 ^^^ P2.getD x 0 := by
  refine ⟨by rw [rc4encrypt_state, rc4encrypt_state, hlen], fun x hx => ?_⟩
  rw [getD_of_getElem? (rc4encrypt_getElem P1 h1 p x hx),
    getD_of_getElem? (rc4encrypt_getElem P2 h2 p x (hlen ▸ hx)), xor_same_key]

/-- Witness of C19 at the text of the driver and the text of 39 zero bytes, from
the state with the identity table. -/
theorem C19_keystream_independent_witness :
    (driverText.length = (List.replicate 39 0).length ∧ IsBytes driverText ∧
      IsBytes (List.replicate 39 0)) ∧
    (rc4encrypt (Arcfour.mk 0 0 0 (List.range 256)) driverText).2
      = (rc4encrypt (Arcfour.mk 0 0 0 (List.range 256)) (List.replicate 39 0)).2 :=
  ⟨⟨by decide, by decide, by decide⟩,
    (C19_keystream_independent (Arcfour.mk 0 0 0 (List.range 256)) driverText
      (List.replicate 39 0) (by decide) (by decide) (by decide)).1⟩

end RC4
